import Mathlib

/-!
A verification development for the wing-segment geometry and property
engine in machupX/wing_segment.py.  Floating-point numerics are embedded
as real-number arithmetic; numpy arrays are embedded as Lean lists or
index functions.  Each definition mirrors one Python function or code
block of the source file.
-/

namespace WingSegmentModel

/-- The side a wing segment is added on (source: the `side` constructor
argument, either "right" or "left"). -/
inductive Side where
  | left
  | right
deriving DecidableEq

/-- Embedding of numpy.linspace(a, b, n): n evenly spaced samples from a
to b, endpoints included; for n = 1 numpy returns the single sample [a]. -/
noncomputable def linspace (a b : ℝ) (n : ℕ) : List ℝ :=
  if n = 1 then [a]
  else (List.range n).map (fun i : ℕ => a + (b - a) * (i : ℝ) / ((n : ℝ) - 1))

/-- The cosine-cluster map applied elementwise in _initialize_params:
theta ↦ (1 - cos theta)/2. -/
noncomputable def cosCluster (θ : ℝ) : ℝ := (1 - Real.cos θ) / 2

/-- Node span fractions built by WingSegment._initialize_params (lines
90-108).  Cosine clustering maps linspace(0, pi, N+1) through
(1-cos)/2; linear spacing is linspace(0, 1, N+1).  For a left-side
segment the array is reversed so span locations proceed left to right. -/
noncomputable def node_span_locs (N : ℕ) (use_clustering : Bool) (side : Side) : List ℝ :=
  let base :=
    if use_clustering then
      (linspace 0 Real.pi (N + 1)).map cosCluster
    else
      linspace 0 1 (N + 1)
  if side = Side.left then base.reverse else base

/-- Control-point span fractions built by WingSegment._initialize_params:
cosine clustering shifts linspace(pi/N, pi, N) down by pi/(2N) and maps
through (1-cos)/2; linear spacing is linspace(1/(2N), 1-1/(2N), N).
Reversed for a left-side segment. -/
noncomputable def cp_span_locs (N : ℕ) (use_clustering : Bool) (side : Side) : List ℝ :=
  let base :=
    if use_clustering then
      ((linspace (Real.pi / N) Real.pi N).map (fun θ => θ - Real.pi / (2 * N))).map cosCluster
    else
      linspace (1 / (2 * N)) (1 - 1 / (2 * N)) N
  if side = Side.left then base.reverse else base

lemma linspace_length (a b : ℝ) (n : ℕ) : (linspace a b n).length = n := by
  unfold linspace
  split
  · simp [*]
  · simp

lemma mem_linspace_bounds {a b : ℝ} {n : ℕ} (hab : a ≤ b) {x : ℝ}
    (hx : x ∈ linspace a b n) : a ≤ x ∧ x ≤ b := by
  unfold linspace at hx
  split at hx
  · simp only [List.mem_singleton] at hx
    subst hx
    exact ⟨le_refl _, hab⟩
  · rename_i hn1
    rcases List.mem_map.mp hx with ⟨i, hmem, rfl⟩
    have hi : i < n := List.mem_range.mp hmem
    have hn2 : 2 ≤ n := by omega
    have hden : (0 : ℝ) < (n : ℝ) - 1 := by
      have : (2 : ℝ) ≤ (n : ℝ) := by exact_mod_cast hn2
      linarith
    constructor
    · have : 0 ≤ (b - a) * (i : ℝ) / ((n : ℝ) - 1) := by
        apply div_nonneg
        · exact mul_nonneg (by linarith) (Nat.cast_nonneg i)
        · linarith
      linarith
    · have hile : (i : ℝ) ≤ (n : ℝ) - 1 := by
        have h1 : (i : ℝ) + 1 ≤ (n : ℝ) := by exact_mod_cast hi
        linarith
      have hfrac : (i : ℝ) / ((n : ℝ) - 1) ≤ 1 := by
        rw [div_le_one hden]; linarith
      have : (b - a) * (i : ℝ) / ((n : ℝ) - 1) ≤ (b - a) := by
        rw [mul_div_assoc]
        calc (b - a) * ((i : ℝ) / ((n : ℝ) - 1)) ≤ (b - a) * 1 :=
              mul_le_mul_of_nonneg_left hfrac (by linarith)
          _ = b - a := mul_one _
      linarith

lemma linspace_pairwise {a b : ℝ} (n : ℕ) (hab : a < b) :
    (linspace a b n).Pairwise (· < ·) := by
  unfold linspace
  split
  · simp
  · rename_i hn1
    rw [List.pairwise_map]
    have base : (List.range n).Pairwise (· < ·) := List.pairwise_lt_range n
    refine base.imp_of_mem ?_
    intro i j hi hj hij
    have hi' : i < n := List.mem_range.mp hi
    have hn2 : 2 ≤ n := by omega
    have hden : (0 : ℝ) < (n : ℝ) - 1 := by
      have : (2 : ℝ) ≤ (n : ℝ) := by exact_mod_cast hn2
      linarith
    have hij' : (i : ℝ) < (j : ℝ) := by exact_mod_cast hij
    have hmul : (b - a) * (i : ℝ) < (b - a) * (j : ℝ) :=
      mul_lt_mul_of_pos_left hij' (by linarith)
    have hdiv : (b - a) * (i : ℝ) / ((n : ℝ) - 1) < (b - a) * (j : ℝ) / ((n : ℝ) - 1) :=
      (div_lt_div_iff_of_pos_right hden).mpr hmul
    linarith

lemma cosCluster_nonneg (θ : ℝ) : 0 ≤ cosCluster θ := by
  unfold cosCluster
  have := Real.cos_le_one θ
  linarith

lemma cosCluster_le_one (θ : ℝ) : cosCluster θ ≤ 1 := by
  unfold cosCluster
  have := Real.neg_one_le_cos θ
  linarith

lemma pairwise_map_cosCluster {l : List ℝ}
    (hb : ∀ x ∈ l, 0 ≤ x ∧ x ≤ Real.pi) (hp : l.Pairwise (· < ·)) :
    (l.map cosCluster).Pairwise (· < ·) := by
  rw [List.pairwise_map]
  refine hp.imp_of_mem ?_
  intro x y hx hy hxy
  have h1 := hb x hx
  have h2 := hb y hy
  have hcos : Real.cos y < Real.cos x :=
    Real.strictAntiOn_cos ⟨h1.1, h1.2⟩ ⟨h2.1, h2.2⟩ hxy
  unfold cosCluster
  linarith

lemma node_left_reverse (N : ℕ) (c : Bool) :
    node_span_locs N c Side.left = (node_span_locs N c Side.right).reverse := by
  simp [node_span_locs]

lemma cp_left_reverse (N : ℕ) (c : Bool) :
    cp_span_locs N c Side.left = (cp_span_locs N c Side.right).reverse := by
  simp [cp_span_locs]

lemma node_right_length (N : ℕ) (c : Bool) :
    (node_span_locs N c Side.right).length = N + 1 := by
  cases c <;> simp [node_span_locs, linspace_length]

lemma cp_right_length (N : ℕ) (c : Bool) :
    (cp_span_locs N c Side.right).length = N := by
  cases c <;> simp [cp_span_locs, linspace_length]

lemma node_right_bounds (N : ℕ) (c : Bool) :
    ∀ x ∈ node_span_locs N c Side.right, 0 ≤ x ∧ x ≤ 1 := by
  intro x hx
  cases c with
  | true =>
    simp only [node_span_locs, if_pos, if_neg, reduceCtorEq, if_false] at hx
    rcases List.mem_map.mp hx with ⟨θ, _, rfl⟩
    exact ⟨cosCluster_nonneg θ, cosCluster_le_one θ⟩
  | false =>
    simp only [node_span_locs, if_neg, reduceCtorEq, if_false, Bool.false_eq_true] at hx
    exact mem_linspace_bounds (by norm_num) hx

lemma cp_right_bounds (N : ℕ) (hN : 0 < N) :
    ∀ (c : Bool), ∀ x ∈ cp_span_locs N c Side.right, 0 ≤ x ∧ x ≤ 1 := by
  intro c x hx
  cases c with
  | true =>
    simp only [cp_span_locs, if_pos, if_neg, reduceCtorEq, if_false] at hx
    rcases List.mem_map.mp hx with ⟨θ, _, rfl⟩
    exact ⟨cosCluster_nonneg θ, cosCluster_le_one θ⟩
  | false =>
    simp only [cp_span_locs, if_neg, reduceCtorEq, if_false, Bool.false_eq_true] at hx
    have hN1 : (1 : ℝ) ≤ (N : ℝ) := by exact_mod_cast hN
    have h2N : (2 : ℝ) ≤ 2 * (N : ℝ) := by linarith
    have hpos : (0 : ℝ) < 2 * (N : ℝ) := by linarith
    have hinv : (1 : ℝ) / (2 * (N : ℝ)) ≤ 1 / 2 := by
      apply div_le_div_of_nonneg_left (by norm_num) (by norm_num) h2N
    have hinv0 : (0 : ℝ) ≤ 1 / (2 * (N : ℝ)) := by positivity
    have hab : (1 : ℝ) / (2 * (N : ℝ)) ≤ 1 - 1 / (2 * (N : ℝ)) := by linarith
    have := mem_linspace_bounds hab hx
    constructor <;> linarith [this.1, this.2]

lemma node_right_pairwise (N : ℕ) (c : Bool) :
    (node_span_locs N c Side.right).Pairwise (· < ·) := by
  cases c with
  | true =>
    simp only [node_span_locs, if_neg, reduceCtorEq, if_false]
    apply pairwise_map_cosCluster
    · intro x hx
      exact mem_linspace_bounds Real.pi_pos.le hx
    · exact linspace_pairwise _ Real.pi_pos
  | false =>
    simp only [node_span_locs, if_neg, reduceCtorEq, if_false, Bool.false_eq_true]
    exact linspace_pairwise _ (by norm_num)

lemma cp_right_pairwise (N : ℕ) (hN : 0 < N) (c : Bool) :
    (cp_span_locs N c Side.right).Pairwise (· < ·) := by
  rcases eq_or_lt_of_le hN with h1 | h2
  · -- N = 1: all the lists are singletons
    have hN1 : N = 1 := h1.symm
    subst hN1
    cases c <;> simp [cp_span_locs, linspace]
  · have hN2 : 2 ≤ N := h2
    cases c with
    | true =>
      simp only [cp_span_locs, if_neg, reduceCtorEq, if_false]
      have hNR : (2 : ℝ) ≤ (N : ℝ) := by exact_mod_cast hN2
      apply pairwise_map_cosCluster
      · intro x hx
        rcases List.mem_map.mp hx with ⟨θ, hθ, rfl⟩
        have hbnd := mem_linspace_bounds
          (div_le_self Real.pi_pos.le (by linarith)) hθ
        have hhalf : Real.pi / (2 * (N : ℝ)) ≤ Real.pi / (N : ℝ) := by
          apply div_le_div_of_nonneg_left Real.pi_pos.le (by linarith) (by linarith)
        have hhalf0 : 0 ≤ Real.pi / (2 * (N : ℝ)) := by positivity
        constructor <;> [linarith [hbnd.1]; linarith [hbnd.2]]
      · rw [List.pairwise_map]
        have hp : (linspace (Real.pi / N) Real.pi N).Pairwise (· < ·) :=
          linspace_pairwise _ (div_lt_self Real.pi_pos (by exact_mod_cast hN2))
        exact hp.imp (fun h => by linarith)
    | false =>
      simp only [cp_span_locs, if_neg, reduceCtorEq, if_false, Bool.false_eq_true]
      have hNR : (2 : ℝ) ≤ (N : ℝ) := by exact_mod_cast hN2
      have hpos : (0 : ℝ) < 2 * (N : ℝ) := by linarith
      have hinv : (1 : ℝ) / (2 * (N : ℝ)) ≤ 1 / 4 := by
        apply div_le_div_of_nonneg_left (by norm_num) (by norm_num) (by linarith)
      exact linspace_pairwise _ (by linarith)

/-- C1: for every N > 0 and either clustering flag, _initialize_params
produces a node span-fraction array of length N+1 and a control-point
span-fraction array of length N, both with all entries in [0,1] and
strictly monotonic (increasing for a right-side segment, decreasing for
a left-side one), and the left-side arrays are the exact element-wise
reverse of the right-side arrays built from identical parameters. -/
theorem c1_span_distributions (N : ℕ) (c : Bool) (hN : 0 < N) :
    (node_span_locs N c Side.right).length = N + 1 ∧
    (cp_span_locs N c Side.right).length = N ∧
    (node_span_locs N c Side.left).length = N + 1 ∧
    (cp_span_locs N c Side.left).length = N ∧
    (∀ x ∈ node_span_locs N c Side.right, 0 ≤ x ∧ x ≤ 1) ∧
    (∀ x ∈ cp_span_locs N c Side.right, 0 ≤ x ∧ x ≤ 1) ∧
    (∀ x ∈ node_span_locs N c Side.left, 0 ≤ x ∧ x ≤ 1) ∧
    (∀ x ∈ cp_span_locs N c Side.left, 0 ≤ x ∧ x ≤ 1) ∧
    (node_span_locs N c Side.right).Pairwise (· < ·) ∧
    (cp_span_locs N c Side.right).Pairwise (· < ·) ∧
    (node_span_locs N c Side.left).Pairwise (· > ·) ∧
    (cp_span_locs N c Side.left).Pairwise (· > ·) ∧
    node_span_locs N c Side.left = (node_span_locs N c Side.right).reverse ∧
    cp_span_locs N c Side.left = (cp_span_locs N c Side.right).reverse := by
  refine ⟨node_right_length N c, cp_right_length N c, ?_, ?_, node_right_bounds N c,
    cp_right_bounds N hN c, ?_, ?_, node_right_pairwise N c, cp_right_pairwise N hN c,
    ?_, ?_, node_left_reverse N c, cp_left_reverse N c⟩
  · rw [node_left_reverse, List.length_reverse]
    exact node_right_length N c
  · rw [cp_left_reverse, List.length_reverse]
    exact cp_right_length N c
  · intro x hx
    rw [node_left_reverse, List.mem_reverse] at hx
    exact node_right_bounds N c x hx
  · intro x hx
    rw [cp_left_reverse, List.mem_reverse] at hx
    exact cp_right_bounds N hN c x hx
  · rw [node_left_reverse, List.pairwise_reverse]
    exact node_right_pairwise N c
  · rw [cp_left_reverse, List.pairwise_reverse]
    exact cp_right_pairwise N hN c

/-- Witness for C1 at the concrete input N = 3 with cosine clustering. -/
theorem c1_span_distributions_witness :
    (node_span_locs 3 true Side.right).length = 3 + 1 :=
  (c1_span_distributions 3 true (by decide)).1

/-- A numpy value that is either a python float scalar or a
one-dimensional ndarray; the span-value getters accept both. -/
inductive NPVal where
  | scalar (x : ℝ)
  | arr (xs : List ℝ)

/-- Embedding of numpy.interp over a table of (x, y) points:
piecewise-linear interpolation, clamping to the boundary values outside
the table domain. -/
noncomputable def npInterp (x : ℝ) : List (ℝ × ℝ) → ℝ
  | [] => 0
  | [(_, y0)] => y0
  | (x0, y0) :: (x1, y1) :: rest =>
    if x ≤ x0 then y0
    else if x ≤ x1 then y0 + (y1 - y0) * (x - x0) / (x1 - x0)
    else npInterp x ((x1, y1) :: rest)

/-- Embedding of the constant-data branch of
WingSegment._build_getter_linear_f_of_span (lines 140-156) with stored
value c (angular data already converted to radians at construction).
A scalar span is wrapped into a one-element array, the result is
np.full(span.shape, c), and only the local variable span -- not the
returned data -- is converted back to a scalar before returning. -/
def constant_getter (c : ℝ) (span : NPVal) : NPVal :=
  match span with
  | NPVal.scalar x => NPVal.arr ([x].map (fun _ => c))
  | NPVal.arr xs => NPVal.arr (xs.map (fun _ => c))

/-- Embedding of the table-data branch of
WingSegment._build_getter_linear_f_of_span (lines 158-174): np.interp
against the stored table (angular tables in radians), applied
elementwise; as in the constant branch, a scalar input is wrapped into a
one-element array and only the span variable is converted back. -/
noncomputable def table_getter (table : List (ℝ × ℝ)) (span : NPVal) : NPVal :=
  match span with
  | NPVal.scalar x => NPVal.arr ([x].map (fun t => npInterp t table))
  | NPVal.arr xs => NPVal.arr (xs.map (fun t => npInterp t table))

/-- C2, code evaluated at the failing input: the constant getter applied
to the scalar span fraction 1/2 returns the one-element array [c], never
a scalar (the table getter shares the same return path); the same-shape
contract does hold for array inputs. -/
theorem c2_scalar_input_yields_array :
    constant_getter 2 (NPVal.scalar (1 / 2)) = NPVal.arr [2] ∧
    (∀ y : ℝ, constant_getter 2 (NPVal.scalar (1 / 2)) ≠ NPVal.scalar y) ∧
    (∀ table : List (ℝ × ℝ), ∀ x : ℝ, ∀ y : ℝ,
      table_getter table (NPVal.scalar x) ≠ NPVal.scalar y) ∧
    (∀ c : ℝ, ∀ xs : List ℝ, ∃ ys : List ℝ,
      constant_getter c (NPVal.arr xs) = NPVal.arr ys ∧ ys.length = xs.length) := by
  refine ⟨rfl, ?_, ?_, ?_⟩
  · intro y h
    exact NPVal.noConfusion h
  · intro table x y h
    exact NPVal.noConfusion h
  · intro c xs
    exact ⟨_, rfl, by simp⟩

/-- Embedding of WingSegment._get_normal_vec (lines 451-469) at one span
station, with tau and delta the values of the twist and dihedral getters
there (radians). -/
noncomputable def normal_vec (side : Side) (τ δ : ℝ) : ℝ × ℝ × ℝ :=
  if side = Side.left then
    (-Real.sin τ * Real.cos δ, Real.sin δ, -Real.cos τ * Real.cos δ)
  else
    (-Real.sin τ * Real.cos δ, -Real.sin δ, -Real.cos τ * Real.cos δ)

/-- C4 counterexample: at twist 0 and dihedral pi/2 the left-side normal
vector computed by the code has middle component sin(pi/2) = 1, whereas
the claimed left-side formula demands -sin(pi/2) = -1. -/
theorem c4_counterexample :
    (normal_vec Side.left 0 (Real.pi / 2)).2.1 = 1 ∧
    -Real.sin (Real.pi / 2) = -1 ∧
    ¬ (normal_vec Side.left 0 (Real.pi / 2)).2.1 = -Real.sin (Real.pi / 2) := by
  have h : (normal_vec Side.left 0 (Real.pi / 2)).2.1 = Real.sin (Real.pi / 2) := rfl
  rw [h, Real.sin_pi_div_two]
  norm_num

/-- C4 amended: the normal unit vector is (-sin tau cos delta, +sin delta,
-cos tau cos delta) for a LEFT-side segment and (-sin tau cos delta,
-sin delta, -cos tau cos delta) for a RIGHT-side segment -- the middle
component is positive for the left side and negative for the right --
and in all cases it has unit Euclidean norm. -/
theorem c4_normal_vec (τ δ : ℝ) :
    normal_vec Side.left τ δ =
      (-Real.sin τ * Real.cos δ, Real.sin δ, -Real.cos τ * Real.cos δ) ∧
    normal_vec Side.right τ δ =
      (-Real.sin τ * Real.cos δ, -Real.sin δ, -Real.cos τ * Real.cos δ) ∧
    (normal_vec Side.left τ δ).2.1 = -(normal_vec Side.right τ δ).2.1 ∧
    (∀ s : Side, (normal_vec s τ δ).1 ^ 2 + (normal_vec s τ δ).2.1 ^ 2 +
      (normal_vec s τ δ).2.2 ^ 2 = 1) := by
  have hτ := Real.sin_sq_add_cos_sq τ
  have hδ := Real.sin_sq_add_cos_sq δ
  refine ⟨rfl, rfl, by simp [normal_vec], ?_⟩
  intro s
  cases s <;> simp [normal_vec] <;> nlinarith [hτ, hδ]

/-- Geometry inputs of a physical wing segment: side, semispan b, root
location (get_root_loc, i.e. origin plus declared offset) and the sweep
and dihedral getters as real functions of span fraction (radians). -/
structure GeomSeg where
  side : Side
  b : ℝ
  root : ℝ × ℝ × ℝ
  sweep : ℝ → ℝ
  dihedral : ℝ → ℝ

/-- Embedding of WingSegment._get_quarter_chord_loc (lines 411-433) at a
single span fraction: each displacement component integrates the local
angle functions from 0 to the requested span fraction (scipy adaptive
quadrature embedded as the interval integral) and scales by the
semispan; the left/right branch flips the sign of the y integrand. -/
noncomputable def quarter_chord_loc (g : GeomSeg) (s : ℝ) : ℝ × ℝ × ℝ :=
  (g.root.1 + (∫ t in (0:ℝ)..s, -Real.tan (g.sweep t)) * g.b,
   g.root.2.1 + (if g.side = Side.left then ∫ t in (0:ℝ)..s, -Real.cos (g.dihedral t)
                 else ∫ t in (0:ℝ)..s, Real.cos (g.dihedral t)) * g.b,
   g.root.2.2 + (∫ t in (0:ℝ)..s, -Real.sin (g.dihedral t)) * g.b)

/-- Embedding of WingSegment.get_tip_loc (lines 397-408) for a physical
(non-origin) segment: the quarter-chord location at span fraction 1. -/
noncomputable def tip_loc (g : GeomSeg) : ℝ × ℝ × ℝ := quarter_chord_loc g 1

/-- C8: for a segment with zero twist, dihedral and sweep, the
quarter-chord location is the affine (linear-in-span-fraction) map
root + s (0, +-b, 0) with the middle sign fixed by the side, and hence
the tip location is root + (0, +b, 0) for a right-side segment and
root + (0, -b, 0) for a left-side one.  (Twist does not enter the
quarter-chord computation at all.) -/
theorem c8_straight_segment (side : Side) (b : ℝ) (root : ℝ × ℝ × ℝ) :
    (∀ s : ℝ, quarter_chord_loc ⟨side, b, root, fun _ => 0, fun _ => 0⟩ s =
      (root.1, root.2.1 + s * (if side = Side.left then -b else b), root.2.2)) ∧
    tip_loc ⟨side, b, root, fun _ => 0, fun _ => 0⟩ =
      (root.1, root.2.1 + (if side = Side.left then -b else b), root.2.2) := by
  have key : ∀ s : ℝ, quarter_chord_loc ⟨side, b, root, fun _ => 0, fun _ => 0⟩ s =
      (root.1, root.2.1 + s * (if side = Side.left then -b else b), root.2.2) := by
    intro s
    cases side <;>
      simp [quarter_chord_loc, Real.tan_zero, Real.cos_zero, Real.sin_zero,
        intervalIntegral.integral_const, smul_eq_mul, Prod.ext_iff]
  refine ⟨key, ?_⟩
  unfold tip_loc
  rw [key 1, one_mul]

/-- Embedding of python dict.get(key, default) for a string-keyed
dictionary of reals. -/
def dict_get (d : List (String × ℝ)) (key : String) (dflt : ℝ) : ℝ :=
  match d.find? (fun kv => kv.1 == key) with
  | some kv => kv.2
  | none => dflt

/-- Modelled from the spec: import_value lives in the helpers module,
which is not part of the included source.  Per the spec, unit conversion
and declarative-value parsing are assumed already normalized before
reaching this engine, so for a control-state dictionary import_value
returns the named deflection value, or the given default when absent. -/
def import_value (key : String) (d : List (String × ℝ)) (dflt : ℝ) : ℝ :=
  dict_get d key dflt

/-- Immutable control-surface data of a segment: the side, whether a
control surface was configured, the baseline flap efficiency
eta_h * eps_f computed by _setup_control_surface, and the control-mixing
dictionary. -/
structure CtrlConfig where
  side : Side
  has_control_surface : Bool
  eta_h_esp_f : ℝ
  control_mixing : List (String × ℝ)

/-- The mutable flap state written by apply_control: net flap deflection
(in radians after the call), deflection effectiveness, and the stored
per-control-point flap efficiency. -/
structure FlapState where
  delta_flap : ℝ
  eta_defl : ℝ
  flap_eff : ℝ

/-- The deflection-accumulation loop of WingSegment.apply_control (lines
772-779): starting from zero, each named control adds deflection times
mixing gain, positively for a right-side segment or a symmetric control
and negatively otherwise. -/
def net_deflection (cfg : CtrlConfig) (control_state : List (String × ℝ))
    (control_symmetry : String → Bool) : ℝ :=
  control_state.foldl
    (fun acc kv =>
      let deflection := import_value kv.1 control_state 0.0
      if cfg.side = Side.right || control_symmetry kv.1 then
        acc + deflection * dict_get cfg.control_mixing kv.1 0.0
      else
        acc - deflection * dict_get cfg.control_mixing kv.1 0.0)
    0

/-- Embedding of WingSegment.apply_control (lines 753-790).  Without a
control surface the call returns immediately.  Otherwise the net flap
deflection is recomputed from zero; the deflection effectiveness is 1.0
when the signed degree-valued deflection is below 11 and otherwise
follows the linear fit of Mechanics of Flight Fig. 1.7.5; the stored
efficiency is the baseline times the effectiveness; finally the
deflection is converted to radians. -/
noncomputable def apply_control (cfg : CtrlConfig) (st : FlapState)
    (control_state : List (String × ℝ)) (control_symmetry : String → Bool) :
    FlapState :=
  if cfg.has_control_surface = false then st
  else
    let delta := net_deflection cfg control_state control_symmetry
    let eta := if delta < 11 then (1.0 : ℝ)
               else -8.71794871794872e-3 * delta + 1.09589743589744
    { delta_flap := delta * (Real.pi / 180),
      eta_defl := eta,
      flap_eff := cfg.eta_h_esp_f * eta }

/-- Embedding of WingSegment.get_cp_flap (lines 793-800). -/
noncomputable def get_cp_flap (cfg : CtrlConfig) (st : FlapState) : ℝ :=
  if cfg.has_control_surface then st.flap_eff * st.delta_flap else 0.0

/-- A concrete control configuration used in the C3 counterexample: a
right-side segment with a control surface, unit baseline efficiency,
and an elevator mixed with gain 1. -/
def c3_cex_cfg : CtrlConfig :=
  { side := Side.right, has_control_surface := true, eta_h_esp_f := 1,
    control_mixing := [("elevator", 1)] }

/-- The control state used in the C3 counterexample: elevator deflected
-20 degrees. -/
def c3_cex_state : List (String × ℝ) := [("elevator", -20)]

/-- C3 counterexample: with a net flap deflection of -20 degrees --
absolute value well above the claimed 11-degree threshold -- the code
keeps the deflection-effectiveness factor at exactly 1.0 instead of the
claimed linear decay value, because apply_control compares the signed
deflection, not its magnitude. -/
theorem c3_counterexample :
    net_deflection c3_cex_cfg c3_cex_state (fun _ => true) = -20 ∧
    (11 : ℝ) ≤ |net_deflection c3_cex_cfg c3_cex_state (fun _ => true)| ∧
    (apply_control c3_cex_cfg ⟨0, 0, 0⟩ c3_cex_state (fun _ => true)).eta_defl = 1 ∧
    ¬ (apply_control c3_cex_cfg ⟨0, 0, 0⟩ c3_cex_state (fun _ => true)).eta_defl =
        -8.71794871794872e-3 * |net_deflection c3_cex_cfg c3_cex_state (fun _ => true)| +
          1.09589743589744 := by
  have hnet : net_deflection c3_cex_cfg c3_cex_state (fun _ => true) = -20 := by
    norm_num [net_deflection, import_value, dict_get, c3_cex_cfg, c3_cex_state]
  have heta : (apply_control c3_cex_cfg ⟨0, 0, 0⟩ c3_cex_state (fun _ => true)).eta_defl = 1 := by
    rw [apply_control, if_neg (by simp [c3_cex_cfg])]
    simp only [hnet]
    norm_num
  refine ⟨hnet, by rw [hnet]; norm_num, heta, ?_⟩
  rw [heta, hnet]
  norm_num

/-- C3 amended: after apply_control on a segment with a control surface,
the deflection-effectiveness factor equals 1.0 whenever the SIGNED net
flap deflection in degrees is below 11 (in particular also for large
negative deflections), for net deflection at least 11 it decays linearly
per the fixed empirical slope and intercept, and the stored flap
efficiency equals the baseline efficiency times this factor. -/
theorem c3_deflection_effectiveness (cfg : CtrlConfig) (st : FlapState)
    (cs : List (String × ℝ)) (sym : String → Bool)
    (h : cfg.has_control_surface = true) :
    (net_deflection cfg cs sym < 11 →
      (apply_control cfg st cs sym).eta_defl = 1) ∧
    (11 ≤ net_deflection cfg cs sym →
      (apply_control cfg st cs sym).eta_defl =
        -8.71794871794872e-3 * net_deflection cfg cs sym + 1.09589743589744) ∧
    (apply_control cfg st cs sym).flap_eff =
      cfg.eta_h_esp_f * (apply_control cfg st cs sym).eta_defl := by
  have heq : (apply_control cfg st cs sym).eta_defl =
      (if net_deflection cfg cs sym < 11 then (1.0 : ℝ)
       else -8.71794871794872e-3 * net_deflection cfg cs sym + 1.09589743589744) := by
    rw [apply_control, if_neg (by simp [h])]
  have heff : (apply_control cfg st cs sym).flap_eff =
      cfg.eta_h_esp_f * (apply_control cfg st cs sym).eta_defl := by
    rw [apply_control, if_neg (by simp [h])]
  refine ⟨fun hlt => ?_, fun hge => ?_, heff⟩
  · rw [heq, if_pos hlt]
    norm_num
  · rw [heq, if_neg (not_lt.mpr hge)]

/-- Witness for C3 at a concrete configuration and control state. -/
theorem c3_deflection_effectiveness_witness :
    (apply_control c3_cex_cfg ⟨0, 0, 0⟩ c3_cex_state (fun _ => true)).flap_eff =
      c3_cex_cfg.eta_h_esp_f *
        (apply_control c3_cex_cfg ⟨0, 0, 0⟩ c3_cex_state (fun _ => true)).eta_defl :=
  (c3_deflection_effectiveness c3_cex_cfg ⟨0, 0, 0⟩ c3_cex_state (fun _ => true) rfl).2.2

/-- C7: for a segment constructed without a control_surface entry,
apply_control returns the flap state unchanged in every field and
get_cp_flap returns exactly 0, for all control-state and
control-symmetry inputs. -/
theorem c7_no_control_surface (cfg : CtrlConfig) (st : FlapState)
    (cs : List (String × ℝ)) (sym : String → Bool)
    (h : cfg.has_control_surface = false) :
    apply_control cfg st cs sym = st ∧ get_cp_flap cfg st = 0 := by
  refine ⟨?_, ?_⟩
  · rw [apply_control, if_pos h]
  · rw [get_cp_flap, if_neg (by simp [h])]
    norm_num

/-- Witness for C7 at a concrete segment without a control surface. -/
theorem c7_no_control_surface_witness :
    apply_control ⟨Side.left, false, 0, []⟩ ⟨1, 2, 3⟩ [("aileron", 5)] (fun _ => false) =
      (⟨1, 2, 3⟩ : FlapState) ∧
    get_cp_flap ⟨Side.left, false, 0, []⟩ ⟨1, 2, 3⟩ = 0 :=
  c7_no_control_surface ⟨Side.left, false, 0, []⟩ ⟨1, 2, 3⟩ [("aileron", 5)]
    (fun _ => false) rfl

/-- C10: the flap state left by apply_control depends only on the
arguments of that call -- the net deflection is recomputed from zero --
so calling apply_control twice in a row with identical inputs leaves
exactly the state of a single call, and for a segment with a control
surface the result is independent of the prior flap state. -/
theorem c10_apply_control_depends_only_on_inputs (cfg : CtrlConfig)
    (st st' : FlapState) (cs : List (String × ℝ)) (sym : String → Bool)
    (h : cfg.has_control_surface = true) :
    apply_control cfg (apply_control cfg st cs sym) cs sym =
      apply_control cfg st cs sym ∧
    apply_control cfg st cs sym = apply_control cfg st' cs sym := by
  unfold apply_control
  simp [h]

/-- Witness for C10 at a concrete configuration, state and control
input. -/
theorem c10_apply_control_witness :
    apply_control c3_cex_cfg (apply_control c3_cex_cfg ⟨7, 8, 9⟩ c3_cex_state (fun _ => true))
        c3_cex_state (fun _ => true) =
      apply_control c3_cex_cfg ⟨7, 8, 9⟩ c3_cex_state (fun _ => true) :=
  (c10_apply_control_depends_only_on_inputs c3_cex_cfg ⟨7, 8, 9⟩ ⟨0, 0, 0⟩
    c3_cex_state (fun _ => true) rfl).1

/-- An airfoil model as consumed through the fixed coefficient-evaluation
contract: each coefficient getter maps a 5-entry parameter vector to a
real coefficient.  (Airfoil objects themselves are external
collaborators of the engine.) -/
structure Airfoil where
  get_CLa : (Fin 5 → ℝ) → ℝ
  get_aL0 : (Fin 5 → ℝ) → ℝ
  get_CLRe : (Fin 5 → ℝ) → ℝ
  get_CLM : (Fin 5 → ℝ) → ℝ
  get_CL : (Fin 5 → ℝ) → ℝ
  get_CD : (Fin 5 → ℝ) → ℝ
  get_Cm : (Fin 5 → ℝ) → ℝ

/-- Default value standing for an out-of-bounds airfoil-array access
(never reached at in-range indices). -/
def zeroAirfoil : Airfoil :=
  ⟨fun _ => 0, fun _ => 0, fun _ => 0, fun _ => 0, fun _ => 0, fun _ => 0, fun _ => 0⟩

/-- The per-segment data read by the coefficient queries: control-point
count and span fractions, the airfoil list with its span stations
(_initialize_airfoils), and the flap terms injected into the parameter
matrix. -/
structure CoefSeg where
  N : ℕ
  cp_span_locs : List ℝ
  airfoils : List Airfoil
  airfoil_spans : List ℝ
  has_control_surface : Bool
  flap_eff : ℝ
  delta_flap : ℝ
  Cm_delta_flap : ℝ

/-- Embedding of _initialize_airfoils (lines 202-211) for a constant
airfoil assignment: the single airfoil is stored twice, at span
stations 0 and 1. -/
def constant_airfoil_seg (N : ℕ) (cp : List ℝ) (hasCS : Bool)
    (fe df cm : ℝ) (af : Airfoil) : CoefSeg :=
  ⟨N, cp, [af, af], [0, 1], hasCS, fe, df, cm⟩

/-- The 5-column parameter row built for control point i by each
coefficient query: the first three columns are copied from the caller's
row and columns 3 and 4 receive the two flap terms only when a control
surface is present (they stay zero otherwise). -/
def new_params (hasCS : Bool) (col3 col4 : ℝ) (params : List (Fin 3 → ℝ))
    (i : ℕ) : Fin 5 → ℝ :=
  fun k =>
    if hk : (k : ℕ) < 3 then params.getD i (fun _ => 0) ⟨k, hk⟩
    else if (k : ℕ) = 3 then (if hasCS then col3 else 0)
    else (if hasCS then col4 else 0)

/-- Embedding of numpy.searchsorted with side left on a sorted sample
array: the insertion index, i.e. the number of samples strictly below
the value. -/
noncomputable def searchsorted (a : List ℝ) (v : ℝ) : ℕ :=
  a.countP (fun x => decide (x < v))

/-- Embedding of WingSegment._airfoil_interpolator (lines 503-512): for
each requested span, locate the bracketing pair of sample spans via the
sorted search, clamped so the lower index never underflows (j[j<0]=0 in
the source, the truncated subtraction here), and linearly blend the two
evaluated coefficients. -/
noncomputable def airfoil_interpolator (interp_spans sample_spans : List ℝ)
    (coefs : ℕ → ℕ → ℝ) : List ℝ :=
  interp_spans.enum.map (fun p =>
    let j := searchsorted sample_spans p.2 - 1
    let d := (p.2 - sample_spans.getD j 0) /
             (sample_spans.getD (j + 1) 0 - sample_spans.getD j 0)
    (1 - d) * coefs p.1 j + d * coefs p.1 (j + 1))

/-- Embedding of WingSegment.get_cp_CLa (lines 515-542): reject a
parameter matrix whose row count differs from the control-point count,
otherwise evaluate every airfoil at every control point and interpolate
across the airfoil span stations. -/
noncomputable def get_cp_CLa (seg : CoefSeg) (params : List (Fin 3 → ℝ)) :
    Except String (List ℝ) :=
  if params.length ≠ seg.N then
    Except.error "params shape does not match control points"
  else
    Except.ok (airfoil_interpolator seg.cp_span_locs seg.airfoil_spans
      (fun i j => (seg.airfoils.getD j zeroAirfoil).get_CLa
        (new_params seg.has_control_surface seg.flap_eff seg.delta_flap params i)))

/-- Embedding of WingSegment.get_cp_aL0 (lines 545-573). -/
noncomputable def get_cp_aL0 (seg : CoefSeg) (params : List (Fin 3 → ℝ)) :
    Except String (List ℝ) :=
  if params.length ≠ seg.N then
    Except.error "params shape does not match control points"
  else
    Except.ok (airfoil_interpolator seg.cp_span_locs seg.airfoil_spans
      (fun i j => (seg.airfoils.getD j zeroAirfoil).get_aL0
        (new_params seg.has_control_surface seg.flap_eff seg.delta_flap params i)))

/-- Embedding of WingSegment.get_cp_CLRe (lines 576-603). -/
noncomputable def get_cp_CLRe (seg : CoefSeg) (params : List (Fin 3 → ℝ)) :
    Except String (List ℝ) :=
  if params.length ≠ seg.N then
    Except.error "params shape does not match control points"
  else
    Except.ok (airfoil_interpolator seg.cp_span_locs seg.airfoil_spans
      (fun i j => (seg.airfoils.getD j zeroAirfoil).get_CLRe
        (new_params seg.has_control_surface seg.flap_eff seg.delta_flap params i)))

/-- Embedding of WingSegment.get_cp_CLM (lines 606-633). -/
noncomputable def get_cp_CLM (seg : CoefSeg) (params : List (Fin 3 → ℝ)) :
    Except String (List ℝ) :=
  if params.length ≠ seg.N then
    Except.error "params shape does not match control points"
  else
    Except.ok (airfoil_interpolator seg.cp_span_locs seg.airfoil_spans
      (fun i j => (seg.airfoils.getD j zeroAirfoil).get_CLM
        (new_params seg.has_control_surface seg.flap_eff seg.delta_flap params i)))

/-- Embedding of WingSegment.get_cp_CL (lines 636-663). -/
noncomputable def get_cp_CL (seg : CoefSeg) (params : List (Fin 3 → ℝ)) :
    Except String (List ℝ) :=
  if params.length ≠ seg.N then
    Except.error "params shape does not match control points"
  else
    Except.ok (airfoil_interpolator seg.cp_span_locs seg.airfoil_spans
      (fun i j => (seg.airfoils.getD j zeroAirfoil).get_CL
        (new_params seg.has_control_surface seg.flap_eff seg.delta_flap params i)))

/-- Embedding of WingSegment.get_cp_CD (lines 666-693). -/
noncomputable def get_cp_CD (seg : CoefSeg) (params : List (Fin 3 → ℝ)) :
    Except String (List ℝ) :=
  if params.length ≠ seg.N then
    Except.error "params shape does not match control points"
  else
    Except.ok (airfoil_interpolator seg.cp_span_locs seg.airfoil_spans
      (fun i j => (seg.airfoils.getD j zeroAirfoil).get_CD
        (new_params seg.has_control_surface seg.flap_eff seg.delta_flap params i)))

/-- Embedding of WingSegment.get_cp_Cm (lines 696-723); note column 3
carries Cm_delta_flap here instead of the flap efficiency. -/
noncomputable def get_cp_Cm (seg : CoefSeg) (params : List (Fin 3 → ℝ)) :
    Except String (List ℝ) :=
  if params.length ≠ seg.N then
    Except.error "params shape does not match control points"
  else
    Except.ok (airfoil_interpolator seg.cp_span_locs seg.airfoil_spans
      (fun i j => (seg.airfoils.getD j zeroAirfoil).get_Cm
        (new_params seg.has_control_surface seg.Cm_delta_flap seg.delta_flap params i)))

/-- Whether an Except result is a success. -/
def except_ok {ε α : Type} : Except ε α → Bool
  | Except.ok _ => true
  | Except.error _ => false

lemma except_ok_ite (c : Prop) [Decidable c] (e : String) (v : List ℝ) :
    except_ok (if c then Except.error e else Except.ok v) = true ↔ ¬ c := by
  split <;> simp [except_ok, *]

/-- C5: every coefficient query (lift coefficient, lift slope, zero-lift
angle, drag, moment, Reynolds and Mach derivatives) succeeds exactly
when the parameter matrix row count equals the control-point count; a
mismatch yields an error value and no result (the queries are pure
reads: the source functions write no segment attribute). -/
theorem c5_param_count_contract (seg : CoefSeg) (params : List (Fin 3 → ℝ)) :
    (except_ok (get_cp_CL seg params) = true ↔ params.length = seg.N) ∧
    (except_ok (get_cp_CLa seg params) = true ↔ params.length = seg.N) ∧
    (except_ok (get_cp_aL0 seg params) = true ↔ params.length = seg.N) ∧
    (except_ok (get_cp_CD seg params) = true ↔ params.length = seg.N) ∧
    (except_ok (get_cp_Cm seg params) = true ↔ params.length = seg.N) ∧
    (except_ok (get_cp_CLRe seg params) = true ↔ params.length = seg.N) ∧
    (except_ok (get_cp_CLM seg params) = true ↔ params.length = seg.N) := by
  refine ⟨?_, ?_, ?_, ?_, ?_, ?_, ?_⟩ <;>
    simp only [get_cp_CL, get_cp_CLa, get_cp_aL0, get_cp_CD, get_cp_Cm,
      get_cp_CLRe, get_cp_CLM] <;>
    exact (except_ok_ite _ _ _).trans not_not

lemma snd_mem_of_mem_enumFrom {α : Type} :
    ∀ (l : List α) (n : ℕ) (p : ℕ × α), p ∈ l.enumFrom n → p.2 ∈ l := by
  intro l
  induction l with
  | nil => intro n p hp; simp [List.enumFrom] at hp
  | cons a t ih =>
    intro n p hp
    rw [List.enumFrom, List.mem_cons] at hp
    rcases hp with h | h
    · subst h; exact List.mem_cons_self a t
    · exact List.mem_cons_of_mem a (ih (n + 1) p h)

lemma snd_mem_of_mem_enum {α : Type} (l : List α) (p : ℕ × α)
    (hp : p ∈ l.enum) : p.2 ∈ l :=
  snd_mem_of_mem_enumFrom l 0 p hp

/-- With exactly two sample stations 0 and 1 and the same evaluated
coefficient at both, the span interpolation returns that coefficient
unchanged at every requested span not beyond the last station. -/
lemma airfoil_interpolator_two_point (cp : List ℝ) (coefs : ℕ → ℕ → ℝ)
    (hcp : ∀ s ∈ cp, s ≤ 1) (hco : ∀ i, coefs i 0 = coefs i 1) :
    airfoil_interpolator cp [0, 1] coefs = cp.enum.map (fun p => coefs p.1 0) := by
  unfold airfoil_interpolator
  apply List.map_congr_left
  intro p hp
  have hle : p.2 ≤ 1 := hcp p.2 (snd_mem_of_mem_enum cp p hp)
  have hcount : searchsorted [0, 1] p.2 ≤ 1 := by
    unfold searchsorted
    have h1 : (decide ((1 : ℝ) < p.2)) = false := by simp [not_lt.mpr hle]
    simp only [List.countP_cons, List.countP_nil, h1]
    by_cases h0 : (0 : ℝ) < p.2 <;> simp [h0]
  have hj : searchsorted [0, 1] p.2 - 1 = 0 := by omega
  simp only [hj]
  rw [hco p.1]
  ring

/-- C9: for a segment whose airfoil assignment is a single constant
airfoil (stored internally as the two-point table over spans 0 and 1),
every coefficient query returns at every control point exactly that
airfoil's direct coefficient evaluation of the same parameter vector,
independent of the internal two-point table. -/
theorem c9_constant_airfoil (N : ℕ) (cp : List ℝ) (hasCS : Bool)
    (fe df cm : ℝ) (af : Airfoil) (params : List (Fin 3 → ℝ))
    (hlen : params.length = N) (hcp : ∀ s ∈ cp, 0 ≤ s ∧ s ≤ 1) :
    get_cp_CL (constant_airfoil_seg N cp hasCS fe df cm af) params =
      Except.ok (cp.enum.map (fun p => af.get_CL (new_params hasCS fe df params p.1))) ∧
    get_cp_CLa (constant_airfoil_seg N cp hasCS fe df cm af) params =
      Except.ok (cp.enum.map (fun p => af.get_CLa (new_params hasCS fe df params p.1))) ∧
    get_cp_aL0 (constant_airfoil_seg N cp hasCS fe df cm af) params =
      Except.ok (cp.enum.map (fun p => af.get_aL0 (new_params hasCS fe df params p.1))) ∧
    get_cp_CD (constant_airfoil_seg N cp hasCS fe df cm af) params =
      Except.ok (cp.enum.map (fun p => af.get_CD (new_params hasCS fe df params p.1))) ∧
    get_cp_Cm (constant_airfoil_seg N cp hasCS fe df cm af) params =
      Except.ok (cp.enum.map (fun p => af.get_Cm (new_params hasCS cm df params p.1))) ∧
    get_cp_CLRe (constant_airfoil_seg N cp hasCS fe df cm af) params =
      Except.ok (cp.enum.map (fun p => af.get_CLRe (new_params hasCS fe df params p.1))) ∧
    get_cp_CLM (constant_airfoil_seg N cp hasCS fe df cm af) params =
      Except.ok (cp.enum.map (fun p => af.get_CLM (new_params hasCS fe df params p.1))) := by
  have hcp1 : ∀ s ∈ cp, s ≤ 1 := fun s hs => (hcp s hs).2
  refine ⟨?_, ?_, ?_, ?_, ?_, ?_, ?_⟩ <;>
    simp only [get_cp_CL, get_cp_CLa, get_cp_aL0, get_cp_CD, get_cp_Cm,
      get_cp_CLRe, get_cp_CLM, constant_airfoil_seg] <;>
    rw [if_neg (by simp [hlen])] <;>
    exact congrArg Except.ok (airfoil_interpolator_two_point cp _ hcp1 (fun i => rfl))

/-- A concrete airfoil used in the C9 witness. -/
def c9_af : Airfoil :=
  ⟨fun v => v 0, fun v => v 1, fun v => v 2, fun v => v 3, fun v => v 4,
   fun v => v 0 + 1, fun v => v 1 + 1⟩

/-- Witness for C9 at a concrete one-control-point segment. -/
theorem c9_constant_airfoil_witness :
    get_cp_CL (constant_airfoil_seg 1 [1 / 2] true 1 2 3 c9_af) [fun _ => 4] =
      Except.ok (([(1 : ℝ) / 2].enum).map
        (fun p => c9_af.get_CL (new_params true 1 2 [fun _ => 4] p.1))) :=
  (c9_constant_airfoil 1 [1 / 2] true 1 2 3 c9_af [fun _ => 4] rfl
    (by intro s hs; rw [List.mem_singleton] at hs; subst hs; norm_num)).1

/-- Prefix test on char lists (helper for the python substring test). -/
def prefixCheck : List Char → List Char → Bool
  | [], _ => true
  | _ :: _, [] => false
  | a :: as, b :: bs => a == b && prefixCheck as bs

/-- Contiguous-substring test on char lists. -/
def containsCheck (sub : List Char) : List Char → Bool
  | [] => sub.isEmpty
  | b :: bs => prefixCheck sub (b :: bs) || containsCheck sub bs

/-- The python expression sub in key on strings, used by
_attach_wing_segment to filter children: the side string must occur as a
substring of the child segment name. -/
def strContains (key sub : String) : Bool := containsCheck sub.data key.data

mutual
/-- A wing segment reduced to the attachment-relevant data: declared ID,
name, and the dictionary of attached child segments in insertion order.
(The geometric payload of WingSegment does not participate in
attachment resolution.) -/
inductive SegNode : Type where
  | mk (ID : ℕ) (name : String) (children : SegList)

/-- The ordered children of a segment. -/
inductive SegList : Type where
  | nil
  | cons (child : SegNode) (rest : SegList)
end

def SegNode.ID : SegNode → ℕ
  | .mk i _ _ => i

def SegNode.name : SegNode → String
  | .mk _ n _ => n

/-- Insertion of a new named child at the end of the child dictionary. -/
def SegList.append1 : SegList → SegNode → SegList
  | .nil, n => .cons n .nil
  | .cons c r, n => .cons c (r.append1 n)

mutual
/-- Embedding of WingSegment._attach_wing_segment (lines 336-364) below
the root-level error: if this segment's ID equals the declared parent ID
the new segment is registered as a named child here; otherwise the
children whose names contain the new segment's side string are searched
in order and the first successful recursive attachment wins.  none
plays the role of the python False result. -/
def attach_seg (newID : ℕ) (newName newSide : String) (parentID : ℕ) :
    SegNode → Option SegNode
  | .mk id nm children =>
    if id = parentID then
      some (.mk id nm (children.append1 (.mk newID newName .nil)))
    else
      match attach_children newID newName newSide parentID children with
      | some cs => some (.mk id nm cs)
      | none => none

/-- The loop of _attach_wing_segment over the child dictionary: children
whose names do not contain the side string are skipped. -/
def attach_children (newID : ℕ) (newName newSide : String) (parentID : ℕ) :
    SegList → Option SegList
  | .nil => none
  | .cons c rest =>
    if strContains c.name newSide then
      match attach_seg newID newName newSide parentID c with
      | some c2 => some (.cons c2 rest)
      | none =>
        match attach_children newID newName newSide parentID rest with
        | some rest2 => some (.cons c rest2)
        | none => none
    else
      match attach_children newID newName newSide parentID rest with
      | some rest2 => some (.cons c rest2)
      | none => none
end

/-- Embedding of WingSegment.attach_wing_segment (lines 296-333)
together with the root-level failure branch of _attach_wing_segment:
only the origin segment (ID 0) may attach, and an unsuccessful search
from the root is a fatal error. -/
def attach_wing_segment (root : SegNode) (newID : ℕ) (newName newSide : String)
    (parentID : ℕ) : Except String SegNode :=
  if root.ID ≠ 0 then
    Except.error "Please add segments only at the origin segment."
  else
    match attach_seg newID newName newSide parentID root with
    | some t => Except.ok t
    | none => Except.error "Could not attach wing segment. Check ID of parent is valid."

mutual
/-- The declared IDs reachable by the attachment search for a given
side: the segment's own ID, then recursively the IDs below children
whose names contain the side string. -/
def reach_ids (side : String) : SegNode → List ℕ
  | .mk id _ children => id :: reach_ids_children side children

def reach_ids_children (side : String) : SegList → List ℕ
  | .nil => []
  | .cons c rest =>
    (if strContains c.name side then reach_ids side c else []) ++
      reach_ids_children side rest
end

mutual
/-- All declared IDs anywhere in the tree (no side filter). -/
def all_ids : SegNode → List ℕ
  | .mk id _ children => id :: all_ids_children children

def all_ids_children : SegList → List ℕ
  | .nil => []
  | .cons c rest => all_ids c ++ all_ids_children rest
end

mutual
/-- Whether some segment in the tree carries the given name. -/
def has_name : SegNode → String → Bool
  | .mk _ nm children, s => nm == s || has_name_children children s

def has_name_children : SegList → String → Bool
  | .nil, _ => false
  | .cons c rest, s => has_name c s || has_name_children rest s
end

mutual
theorem attach_seg_isSome_iff (newID : ℕ) (newName newSide : String)
    (parentID : ℕ) :
    ∀ t : SegNode, (attach_seg newID newName newSide parentID t).isSome = true ↔
      parentID ∈ reach_ids newSide t
  | .mk id nm children => by
    have ih := attach_children_isSome_iff newID newName newSide parentID children
    simp only [attach_seg, reach_ids, List.mem_cons]
    by_cases h : id = parentID
    · simp [h]
    · rw [if_neg h]
      cases hac : attach_children newID newName newSide parentID children with
      | none =>
        rw [hac] at ih
        simp only [Option.isSome_none, Bool.false_eq_true, false_iff] at ih
        simp only [Option.isSome_none, Bool.false_eq_true, false_iff]
        intro hmem
        rcases hmem with heq | hmem
        · exact h heq.symm
        · exact ih hmem
      | some cs =>
        rw [hac] at ih
        simp only [Option.isSome_some, true_iff] at ih
        simp [ih]

theorem attach_children_isSome_iff (newID : ℕ) (newName newSide : String)
    (parentID : ℕ) :
    ∀ l : SegList, (attach_children newID newName newSide parentID l).isSome = true ↔
      parentID ∈ reach_ids_children newSide l
  | .nil => by simp [attach_children, reach_ids_children]
  | .cons c rest => by
    have ih1 := attach_seg_isSome_iff newID newName newSide parentID c
    have ih2 := attach_children_isSome_iff newID newName newSide parentID rest
    simp only [attach_children, reach_ids_children, List.mem_append]
    by_cases hs : strContains c.name newSide
    · rw [if_pos hs]
      cases h1 : attach_seg newID newName newSide parentID c with
      | some c2 =>
        rw [h1] at ih1
        simp only [Option.isSome_some, true_iff] at ih1
        simp [hs, ih1]
      | none =>
        rw [h1] at ih1
        simp only [Option.isSome_none, Bool.false_eq_true, false_iff] at ih1
        cases h2 : attach_children newID newName newSide parentID rest with
        | some r2 =>
          rw [h2] at ih2
          simp only [Option.isSome_some, true_iff] at ih2
          simp [hs, ih2]
        | none =>
          rw [h2] at ih2
          simp only [Option.isSome_none, Bool.false_eq_true, false_iff] at ih2
          simp only [Option.isSome_none, Bool.false_eq_true, false_iff]
          intro hmem
          rcases hmem with hmem | hmem
          · rw [if_pos hs] at hmem
            exact ih1 hmem
          · exact ih2 hmem
    · rw [if_neg hs]
      cases h2 : attach_children newID newName newSide parentID rest with
      | some r2 =>
        rw [h2] at ih2
        simp only [Option.isSome_some, true_iff] at ih2
        simp [hs, ih2]
      | none =>
        rw [h2] at ih2
        simp only [Option.isSome_none, Bool.false_eq_true, false_iff] at ih2
        simp only [Option.isSome_none, Bool.false_eq_true, false_iff]
        intro hmem
        rcases hmem with hmem | hmem
        · rw [if_neg hs] at hmem
          simp at hmem
        · exact ih2 hmem
end

theorem has_name_append1 :
    ∀ (l : SegList) (n : SegNode) (s : String),
      has_name_children (l.append1 n) s = (has_name_children l s || has_name n s)
  | .nil, n, s => by simp [SegList.append1, has_name_children]
  | .cons c r, n, s => by
    simp [SegList.append1, has_name_children, has_name_append1 r n s, Bool.or_assoc]

mutual
theorem attach_seg_registers (newID : ℕ) (newName newSide : String)
    (parentID : ℕ) :
    ∀ (t t' : SegNode), attach_seg newID newName newSide parentID t = some t' →
      has_name t' newName = true
  | .mk id nm children => by
    intro t' h
    simp only [attach_seg] at h
    by_cases hid : id = parentID
    · rw [if_pos hid] at h
      have ht' : t' = SegNode.mk id nm (children.append1 (.mk newID newName .nil)) :=
        (Option.some.injEq _ _ ▸ h).symm
      subst ht'
      simp [has_name, has_name_append1, beq_self_eq_true]
    · rw [if_neg hid] at h
      cases hac : attach_children newID newName newSide parentID children with
      | none => rw [hac] at h; exact absurd h (by simp)
      | some cs =>
        rw [hac] at h
        have ht' : t' = SegNode.mk id nm cs := (Option.some.injEq _ _ ▸ h).symm
        subst ht'
        have := attach_children_register newID newName newSide parentID children cs hac
        simp [has_name, this]

theorem attach_children_register (newID : ℕ) (newName newSide : String)
    (parentID : ℕ) :
    ∀ (l l' : SegList), attach_children newID newName newSide parentID l = some l' →
      has_name_children l' newName = true
  | .nil => by intro l' h; simp [attach_children] at h
  | .cons c rest => by
    intro l' h
    simp only [attach_children] at h
    by_cases hs : strContains c.name newSide
    · rw [if_pos hs] at h
      cases h1 : attach_seg newID newName newSide parentID c with
      | some c2 =>
        rw [h1] at h
        have hl' : l' = SegList.cons c2 rest := (Option.some.injEq _ _ ▸ h).symm
        subst hl'
        have := attach_seg_registers newID newName newSide parentID c c2 h1
        simp [has_name_children, this]
      | none =>
        rw [h1] at h
        cases h2 : attach_children newID newName newSide parentID rest with
        | none => rw [h2] at h; exact absurd h (by simp)
        | some r2 =>
          rw [h2] at h
          have hl' : l' = SegList.cons c r2 := (Option.some.injEq _ _ ▸ h).symm
          subst hl'
          have := attach_children_register newID newName newSide parentID rest r2 h2
          simp [has_name_children, this]
    · rw [if_neg hs] at h
      cases h2 : attach_children newID newName newSide parentID rest with
      | none => rw [h2] at h; exact absurd h (by simp)
      | some r2 =>
        rw [h2] at h
        have hl' : l' = SegList.cons c r2 := (Option.some.injEq _ _ ▸ h).symm
        subst hl'
        have := attach_children_register newID newName newSide parentID rest r2 h2
        simp [has_name_children, this]
end

/-- The concrete tree of the C6 counterexample: the origin segment with
one left-side child named wing_left carrying ID 1. -/
def c6_cex_tree : SegNode :=
  SegNode.mk 0 "origin" (SegList.cons (SegNode.mk 1 "wing_left" SegList.nil) SegList.nil)

/-- C6 counterexample: attaching a right-side segment that declares
connect_to ID 1 from the root raises the fatal attachment error even
though a segment with ID 1 exists in the tree -- the search skips the
child because its name does not contain the string right, so error
if-and-only-if no ID match exists anywhere is false. -/
theorem c6_counterexample :
    attach_wing_segment c6_cex_tree 2 "tip_right" "right" 1 =
      Except.error "Could not attach wing segment. Check ID of parent is valid." ∧
    1 ∈ all_ids c6_cex_tree := by
  constructor
  · simp only [attach_wing_segment, c6_cex_tree, attach_seg, attach_children,
      SegNode.ID, SegNode.name]
    norm_num
    rfl
  · simp [all_ids, all_ids_children, c6_cex_tree]

/-- C6 amended: for an attachment invoked on the root (ID 0) segment, a
fatal error is raised if and only if the declared connect_to ID matches
no segment reachable by the side-filtered search (the root itself plus
descendants below children whose names contain the new segment's side
string); when such a parent is found, the new segment is constructed and
registered, so its name is present in the updated tree. -/
theorem c6_attachment (root : SegNode) (newID : ℕ) (newName newSide : String)
    (parentID : ℕ) (h0 : root.ID = 0) :
    (except_ok (attach_wing_segment root newID newName newSide parentID) = false ↔
      parentID ∉ reach_ids newSide root) ∧
    (∀ t', attach_wing_segment root newID newName newSide parentID = Except.ok t' →
      has_name t' newName = true) := by
  unfold attach_wing_segment
  rw [if_neg (by simp [h0])]
  constructor
  · cases hat : attach_seg newID newName newSide parentID root with
    | some t =>
      have hmem : parentID ∈ reach_ids newSide root :=
        (attach_seg_isSome_iff newID newName newSide parentID root).mp (by simp [hat])
      simp [except_ok, hmem]
    | none =>
      have hno : parentID ∉ reach_ids newSide root := by
        intro hm
        have := (attach_seg_isSome_iff newID newName newSide parentID root).mpr hm
        rw [hat] at this
        simp at this
      simp [except_ok, hno]
  · intro t' ht
    cases hat : attach_seg newID newName newSide parentID root with
    | some t =>
      rw [hat] at ht
      have : t' = t := by
        have := Except.ok.injEq (α := SegNode) (ε := String) t t'
        exact (Except.ok.inj ht).symm
      subst this
      exact attach_seg_registers newID newName newSide parentID root t' hat
    | none => rw [hat] at ht; exact absurd ht (by simp)

/-- Witness for C6: attaching directly to the origin segment (parent ID
0) from a bare root. -/
theorem c6_attachment_witness :
    except_ok (attach_wing_segment (SegNode.mk 0 "origin" SegList.nil) 1
        "main_wing_right" "right" 0) = false ↔
      0 ∉ reach_ids "right" (SegNode.mk 0 "origin" SegList.nil) :=
  (c6_attachment (SegNode.mk 0 "origin" SegList.nil) 1 "main_wing_right" "right" 0 rfl).1

end WingSegmentModel
